import Mathlib

/-!
Shallow embedding of the `pathlist` package (src/pathlist/path.py): the
`CountedList` container, the depth-bounded directory walker `_ls` with its
entry points `Path.ls` / `Path.rls`, the tree renderer `get_directory_tree`,
and the `Path` value with its `change` operation.  The filesystem and the
random generator are external collaborators and are modelled as explicit
parameters (a function structure `FS`, an oracle for `random.sample`).
-/

/-- Python string repetition of a blank, as in the source's indent strings. -/
def spaces (n : Nat) : String := String.mk (List.replicate n ' ')

/-- Python separator join over a list of strings, modelling `sep.join(parts)`. -/
def joinSep (sep : String) : List String → String
  | [] => ""
  | [s] => s
  | s :: ss => s ++ sep ++ joinSep sep ss

/-- Python string slice `s[nn:]` for a nonnegative `nn`. -/
def pyStrDrop (s : String) (nn : Nat) : String := String.mk (s.data.drop nn)

/-- Python substring containment test `pat in s`. -/
def strContains (pat s : String) : Bool := decide (pat.data <:+: s.data)

/-- Python list indexing `l[i]` with negative-index support; a `none` result
models an `IndexError`. -/
def pyGet {α : Type} (l : List α) (i : Int) : Option α :=
  if 0 ≤ i then l.get? i.toNat
  else if -(l.length : Int) ≤ i then l.get? (i + l.length).toNat
  else none

/-- Python head slice `l[:k]` for an arbitrary integer `k`. -/
def pyTake {α : Type} (l : List α) (k : Int) : List α :=
  if 0 ≤ k then l.take k.toNat else l.take ((l.length : Int) + k).toNat

/-- Model of `CountedList` (src/pathlist/path.py:14): a list carrying the two
display parameters set by `CountedList.__init__`. -/
structure CountedList (α : Type) where
  items : List α
  max_lines : Int
  max_width : Int
deriving DecidableEq

/-- Construction `CountedList(iterable)` with the default display parameters
`max_lines=15, max_width=120`. -/
def CountedList.ofList {α : Type} (l : List α) : CountedList α := ⟨l, 15, 120⟩

/-- Property `CountedList.n`: the number of items. -/
def CountedList.n {α : Type} (c : CountedList α) : Nat := c.items.length

/-- Integer indexing `c[i]`, the `super().__getitem__(index)` branch of
`CountedList.__getitem__`: the bare element is returned. -/
def CountedList.getInt {α : Type} (c : CountedList α) (i : Int) : Option α :=
  pyGet c.items i

/-- Model of a Python `slice(start, stop, step)` object. -/
structure PySlice where
  start : Option Int
  stop : Option Int
  step : Option Int
deriving DecidableEq

/-- Clamping of a slice endpoint for a positive step, as in CPython's
slice-index adjustment. -/
def adjPos (nn : Nat) (v : Int) : Nat :=
  let w := if v < 0 then v + nn else v
  if w < 0 then 0 else min w.toNat nn

/-- Clamping of a slice endpoint for a negative step; the result lies in
`[-1, nn-1]`. -/
def adjNeg (nn : Nat) (v : Int) : Int :=
  let w := if v < 0 then v + nn else v
  if w < 0 then -1 else min w ((nn : Int) - 1)

/-- Index sequence visited by a slice over a sequence of length `nn`, per
CPython semantics; `none` models the `ValueError` raised for a zero step. -/
def pySliceIdx (nn : Nat) (sl : PySlice) : Option (List Nat) :=
  let step := sl.step.getD 1
  if step = 0 then none
  else if 0 < step then
    let st := adjPos nn (sl.start.getD 0)
    let sp := adjPos nn (sl.stop.getD nn)
    let stp := step.toNat
    let cnt := ((sp - st) + (stp - 1)) / stp
    some ((List.range cnt).map (fun j => st + j * stp))
  else
    let st := adjNeg nn (sl.start.getD (nn : Int))
    let sp := adjNeg nn (sl.stop.getD (-(nn : Int) - 1))
    let stp := (-step).toNat
    let cnt := ((st - sp).toNat + (stp - 1)) / stp
    some ((List.range cnt).map (fun j => (st - (j : Int) * stp).toNat))

/-- Slice indexing `c[a:b:s]`, the `isinstance(index, slice)` branch of
`CountedList.__getitem__`: the sliced items are wrapped by the default
`CountedList` constructor. -/
def CountedList.getSlice {α : Type} (c : CountedList α) (sl : PySlice) :
    Option (CountedList α) :=
  (pySliceIdx c.items.length sl).map
    (fun idxs => CountedList.ofList (idxs.filterMap c.items.get?))

/-- Python list comprehension over a fallible element function: the elements
are produced in order, and a failure, an `IndexError` here, aborts the whole
comprehension. -/
def traverseOpt {α β : Type} (g : α → Option β) : List α → Option (List β)
  | [] => some []
  | a :: l => (g a).bind (fun b => (traverseOpt g l).map (fun bs => b :: bs))

/-- Fancy indexing `c[[i0, ..., ik]]`, the `isinstance(index, list)` branch of
`CountedList.__getitem__`, i.e. `CountedList([self[i] for i in index])`: each
index is resolved through integer indexing and the gathered elements are
wrapped by the default `CountedList` constructor. -/
def CountedList.getList {α : Type} (c : CountedList α) (idx : List Int) :
    Option (CountedList α) :=
  (traverseOpt c.getInt idx).map CountedList.ofList

/-- Inner loop of `CountedList.__repr__` building the one-line preview, with
the early break once the candidate line exceeds `max_width`. -/
def oneLineLoop {α : Type} (f : α → String) (indentLength : Nat) (maxWidth : Int) :
    String → List α → String
  | acc, [] => acc
  | acc, it :: rest =>
    let acc2 := acc ++ ", " ++ f it
    if (acc2.length : Int) + indentLength + 1 > maxWidth then acc2
    else oneLineLoop f indentLength maxWidth acc2 rest

/-- Model of `CountedList.__repr__` (src/pathlist/path.py:56); the function `f`
stands for Python `repr` on individual elements. -/
def CountedList.render {α : Type} (f : α → String) (c : CountedList α) : String :=
  match c.items with
  | [] => "(#0) []"
  | x :: xs =>
    let count := c.n
    let indentLength := 5 + (toString count).length
    let indent := spaces indentLength
    let oneLine := oneLineLoop f indentLength c.max_width (f x) xs
    if (oneLine.length : Int) + indentLength + 1 ≤ c.max_width then
      "(#" ++ toString count ++ ") [" ++ oneLine ++ "]"
    else
      let body :=
        if (count : Int) ≤ c.max_lines then
          joinSep ",\n" (c.items.map (fun it => indent ++ f it))
        else
          joinSep ",\n" ((pyTake c.items (c.max_lines - 1)).map (fun it => indent ++ f it))
            ++ ",\n" ++ indent ++ "...\n" ++ indent ++ f ((x :: xs).getLast (List.cons_ne_nil x xs))
      "(#" ++ toString count ++ ") [" ++ pyStrDrop body indentLength ++ "]"

/-- The single-line-fits condition tested by `CountedList.__repr__`. -/
def CountedList.fitsOneLine {α : Type} (f : α → String) (c : CountedList α) : Bool :=
  match c.items with
  | [] => true
  | x :: xs =>
    let indentLength := 5 + (toString c.items.length).length
    decide (((oneLineLoop f indentLength c.max_width (f x) xs).length : Int)
      + indentLength + 1 ≤ c.max_width)

/-- Contract of the external collaborator `random.sample(population, k)` for
`0 ≤ k ≤ n`: a choice of `k` distinct positions of the population. -/
structure SampleOracle (nn k : Nat) where
  idxs : List (Fin nn)
  nodup : idxs.Nodup
  length_eq : idxs.length = k

/-- Model of `CountedList.sample` (src/pathlist/path.py:114), that is
`CountedList(random.sample(self, k=k))`: the random choice of positions is
supplied by the oracle, and the `ValueError` raised by `random.sample` when
`k` is negative or exceeds the population is modelled by the error branch. -/
def CountedList.sample {α : Type} (c : CountedList α) (k : Int)
    (oracle : ∀ kk : Nat, kk ≤ c.items.length → SampleOracle c.items.length kk) :
    Except String (CountedList α) :=
  if h : 0 ≤ k ∧ k ≤ (c.items.length : Int) then
    .ok (CountedList.ofList (((oracle k.toNat (by omega)).idxs).map c.items.get))
  else
    .error "Sample larger than population or is negative"

/-- Prefixing of a character onto the first group of a split; the nil case is
unreachable since a split is never empty. -/
def consHead (x : Char) : List (List Char) → List (List Char)
  | [] => [[x]]
  | h :: t => (x :: h) :: t

/-- Python string split `s.split(sep)` at character level. -/
def splitChar (c : Char) : List Char → List (List Char)
  | [] => [[]]
  | x :: xs => if x = c then [] :: splitChar c xs else consHead x (splitChar c xs)

/-- Test `arg.startswith(sep)` for the one-character separator. -/
def startsSlash (s : String) : Bool := s.data.head? = some '/'

/-- Model of a parsed POSIX pure path: the anchor flag plus the normalized
segments, the internal state of a `pathlib.PurePosixPath` value. -/
structure PyPath where
  absolute : Bool
  segs : List String
deriving DecidableEq

/-- One step of the `pathlib` argument parsing: a later absolute argument
resets the accumulated path, then the argument is split on the separator and
empty and single-dot components are dropped. -/
def parsePart (acc : PyPath) (arg : String) : PyPath :=
  let base := if startsSlash arg then PyPath.mk true [] else acc
  PyPath.mk base.absolute
    (base.segs ++ ((splitChar '/' arg.data).map String.mk).filter
      (fun s => s ≠ "" && s ≠ "."))

/-- Construction `Path(*args)`, i.e. `pathlib.PurePosixPath(*args)`. -/
def pyPath (args : List String) : PyPath :=
  List.foldl parsePart (PyPath.mk false []) args

/-- Property `Path.parts`: the anchor, when present, is the first part. -/
def PyPath.parts (p : PyPath) : List String :=
  (if p.absolute then ["/"] else []) ++ p.segs

/-- Model of `Path.change(old, new)` (src/pathlist/path.py:190):
`self.__class__(*(part if part != old else new for part in self.parts))`. -/
def PyPath.change (p : PyPath) (old new : String) : PyPath :=
  pyPath (p.parts.map (fun part => if part = old then new else part))

/-- A plain path segment: nonempty, not the single dot, holding no separator. -/
def segOk (s : String) : Bool := s ≠ "" && s ≠ "." && !s.data.contains '/'

/-- Well-formedness of a parsed path; every path value built by `pathlib`
parsing satisfies it. -/
def PyPath.Wf (p : PyPath) : Prop := p.segs.all segOk = true

/-- The filesystem collaborator: existence test, `os.scandir` entry names in
enumeration order, and the directory and file queries, all keyed by the path
string.  Nothing forces the model to be finite, so unboundedly deep
structures, such as the ones produced by cyclic symlinks, are representable. -/
structure FS where
  pathExists : String → Bool
  entries : String → List String
  isDir : String → Bool
  isFile : String → Bool

/-- Model of `os.path.join(path, name)` for an entry name as produced by
`os.scandir` (`entry.path`). -/
def osJoin (p nm : String) : String :=
  if p = "" then nm else if p.data.getLast? = some '/' then p ++ nm else p ++ "/" ++ nm

/-- An element appended by `_ls`: a `Path(_path)` value, or the raw path
string when `purestr` is requested. -/
inductive LsItem where
  | pathItem (p : PyPath)
  | strItem (s : String)
deriving DecidableEq

/-- The wrapping applied by `_ls` when appending a matching full path. -/
def mkLsItem (purestr : Bool) (s : String) : LsItem :=
  if purestr then .strItem s else .pathItem (pyPath [s])

/-- Hidden-entry test `entry.name.startswith('.')`. -/
def hiddenName (nm : String) : Bool := nm.data.head? = some '.'

/-- The entry loop of `_ls` (src/pathlist/path.py:133): hidden entries are
skipped, a full path holding the pattern is appended, and whatever the
recursive part `sub` produces for the entry's full path is spliced in behind
it, flattened. -/
def lsScan (pattern : String) (purestr : Bool)
    (sub : String → List LsItem) (path : String) (names : List String) : List LsItem :=
  names.foldr
    (fun nm acc =>
      (if hiddenName nm then []
       else
         (if strContains pattern (osJoin path nm) then
            [mkLsItem purestr (osJoin path nm)]
          else []) ++
         sub (osJoin path nm))
      ++ acc)
    []

/-- The depth dispatch of `_ls`: with a budget of at most 1 the conjunction
`entry.is_dir() and depth > 1` is false and no entry contributes a recursive
part, while with a larger budget a directory entry contributes the inlined
recursive `_ls` call (existence check, then scan) at the decremented budget. -/
def lsEntries (fs : FS) (pattern : String) (purestr : Bool) :
    Nat → String → List String → List LsItem
  | 0, path, names => lsScan pattern purestr (fun _ => []) path names
  | 1, path, names => lsScan pattern purestr (fun _ => []) path names
  | d + 2, path, names =>
    lsScan pattern purestr
      (fun p =>
        if fs.isDir p then
          if fs.pathExists p then
            lsEntries fs pattern purestr (d + 1) p (fs.entries p)
          else []
        else [])
      path names

/-- Model of `_ls` (src/pathlist/path.py:127): an empty `CountedList` when the
root does not exist, else the scan of the root; either way the returned
container is built by the default `CountedList` constructor.  The source tests
the integer `depth` only through `depth > 1` and decrements it, which never
distinguishes integers at or below zero, so the budget is carried as the
natural number `depth.toNat` (the match on `d + 2` above is the `depth > 1`
test, and `d + 1` the decrement). -/
def _ls (fs : FS) (path : String) (pattern : String) (purestr : Bool) (depth : Int) :
    CountedList LsItem :=
  if fs.pathExists path then
    CountedList.ofList (lsEntries fs pattern purestr depth.toNat path (fs.entries path))
  else CountedList.ofList []

/-- Model of `Path.ls` (src/pathlist/path.py:213): the shallow listing,
`_ls(self, pattern, purestr=purestr, depth=1)`. -/
def Path.ls (fs : FS) (path : String) (pattern : String) (purestr : Bool) :
    CountedList LsItem :=
  _ls fs path pattern purestr 1

/-- Model of `Path.rls` (src/pathlist/path.py:224): a negative depth argument
is replaced by the sentinel `1 << 30` before the walk. -/
def Path.rls (fs : FS) (path : String) (pattern : String) (purestr : Bool)
    (depth : Int) : CountedList LsItem :=
  _ls fs path pattern purestr (if 0 ≤ depth then depth else ((1 <<< 30 : Nat) : Int))

/-- Lexicographic code-point comparison of character lists, the order Python
uses on strings. -/
def lexLe : List Char → List Char → Bool
  | [], _ => true
  | _ :: _, [] => false
  | x :: xs, y :: ys =>
    if x.val < y.val then true else if y.val < x.val then false else lexLe xs ys

/-- Stable insertion of a string into an ascending list, placing it after any
equal elements. -/
def insertName (s : String) : List String → List String
  | [] => [s]
  | x :: xs => if lexLe x.data s.data then x :: insertName s xs else s :: x :: xs

/-- Python stable sort of entry names, `sorted(children, key=lambda x: x.name)`. -/
def sortNames (l : List String) : List String :=
  l.foldl (fun acc s => insertName s acc) []

/-- Property `pathlib.Path(...).name`: the final path segment. -/
def pathName (s : String) : String := (pyPath [s]).segs.getLast?.getD ""

/-- Body of `get_directory_tree` for a nonnegative remaining budget: the
root's own line, then, when the root is a directory and the budget is
positive, the children in name-sorted order with the budget decremented.  The
source tests its integer `depth` here only through `depth > 0` and decrements
it, so the budget is carried as `depth.toNat`; recursive calls always receive
a nonnegative budget, hence the `depth == -1` cut of `get_directory_tree`
applies to the top-level call only. -/
def treeAux (fs : FS) : Nat → Int → String → String
  | fuel, indent, root =>
    let tree := spaces indent.toNat ++ "|--" ++ (if fs.isFile root then "[F]" else "[D]")
      ++ " " ++ pathName root ++ "\n"
    match fuel, fs.isDir root with
    | f + 1, true =>
      tree ++ String.join ((sortNames (fs.entries root)).map
        (fun nm => treeAux fs f (indent + 6) (osJoin root nm)))
    | _, _ => tree

/-- Model of `get_directory_tree` (src/pathlist/path.py:311); the `verbose`
echo to standard output is a pure side effect and is omitted. -/
def get_directory_tree (fs : FS) (root : String) (indent : Int) (depth : Int) : String :=
  if depth = -1 then "" else treeAux fs depth.toNat indent root

/-- Specification predicate for the walker: the full paths emitted by a scan
rooted at `path` with the given depth budget.  An entry is listed directly
when it is visible and its full path holds the pattern; a visible directory
entry is descended into exactly while the budget exceeds 1. -/
inductive Listed (fs : FS) (pattern : String) : Nat → String → String → Prop
  | here {depth : Nat} {path nm : String} :
      nm ∈ fs.entries path → hiddenName nm = false →
      strContains pattern (osJoin path nm) = true →
      Listed fs pattern depth path (osJoin path nm)
  | deeper {depth : Nat} {path nm q : String} :
      nm ∈ fs.entries path → hiddenName nm = false →
      fs.isDir (osJoin path nm) = true → 1 < depth →
      fs.pathExists (osJoin path nm) = true →
      Listed fs pattern (depth - 1) (osJoin path nm) q →
      Listed fs pattern depth path q

/-- Fixture for the depth-two walk: a root holding one subdirectory that holds
ten files. -/
def fsDeep : FS :=
  ⟨fun p => p = "r" || p = "r/sub" ||
      ((List.range 10).map (fun i => "r/sub/file" ++ toString i)).contains p,
   fun p =>
     if p = "r" then ["sub"]
     else if p = "r/sub" then (List.range 10).map (fun i => "file" ++ toString i)
     else [],
   fun p => p = "r" || p = "r/sub",
   fun p => ((List.range 10).map (fun i => "r/sub/file" ++ toString i)).contains p⟩

/-- Fixture for hidden-entry skipping: a directory holding two plain files and
one hidden file. -/
def fsTwoFiles : FS :=
  ⟨fun p => p = "d" || p = "d/a.txt" || p = "d/b.txt" || p = "d/.hidden",
   fun p => if p = "d" then ["a.txt", ".hidden", "b.txt"] else [],
   fun p => p = "d",
   fun p => p = "d/a.txt" || p = "d/b.txt" || p = "d/.hidden"⟩

/-- Fixture for an unboundedly deep filesystem, as produced by a cyclic
symlink: every path exists, is a directory, and holds one entry. -/
def fsCyclic : FS := ⟨fun _ => true, fun _ => ["b"], fun _ => true, fun _ => false⟩

/-- Fixture for a missing root: no path exists. -/
def fsMissing : FS := ⟨fun _ => false, fun _ => [], fun _ => false, fun _ => false⟩

/-- A deterministic instance of the `random.sample` contract over a
three-element population, used to instantiate sampling statements. -/
def oracleTake3 (c : CountedList Nat) (hc : c.items.length = 3) :
    ∀ kk : Nat, kk ≤ c.items.length → SampleOracle c.items.length kk :=
  fun kk hk =>
    ⟨(List.finRange c.items.length).take kk,
     (List.nodup_finRange _).sublist (List.take_sublist _ _),
     by simp [List.length_take]; omega⟩

theorem spaces_length (n : Nat) : (spaces n).length = n := by
  show (List.replicate n ' ').length = n
  simp

theorem pyStrDrop_append (x t : String) : pyStrDrop (x ++ t) x.length = t := by
  show String.mk ((x ++ t).data.drop x.length) = t
  rw [String.data_append]
  show String.mk ((x.data ++ t.data).drop x.data.length) = t
  rw [List.drop_left]

theorem joinSep_map_indent (sep ind s : String) (ls : List String) :
    joinSep sep ((s :: ls).map (fun t => ind ++ t)) =
      ind ++ joinSep (sep ++ ind) (s :: ls) := by
  induction ls generalizing s with
  | nil => rfl
  | cons s2 ls ih =>
    show (ind ++ s) ++ sep ++ joinSep sep ((s2 :: ls).map (fun t => ind ++ t)) =
      ind ++ (s ++ (sep ++ ind) ++ joinSep (sep ++ ind) (s2 :: ls))
    rw [ih]
    simp [String.append_assoc]

theorem strContains_empty (s : String) : strContains "" s = true := by
  simp [strContains]

theorem lsScan_nil (pat : String) (ps : Bool) (sub : String → List LsItem) (path : String) :
    lsScan pat ps sub path [] = [] := rfl

theorem lsScan_cons (pat : String) (ps : Bool) (sub : String → List LsItem)
    (path nm : String) (rest : List String) :
    lsScan pat ps sub path (nm :: rest) =
      (if hiddenName nm then []
       else
         (if strContains pat (osJoin path nm) then [mkLsItem ps (osJoin path nm)] else []) ++
         sub (osJoin path nm))
      ++ lsScan pat ps sub path rest := rfl

theorem lsEntries_eq_scan (fs : FS) (pat : String) (ps : Bool) (depth : Nat)
    (path : String) (names : List String) :
    lsEntries fs pat ps depth path names =
      lsScan pat ps
        (fun p =>
          if 2 ≤ depth then
            if fs.isDir p then
              if fs.pathExists p then lsEntries fs pat ps (depth - 1) p (fs.entries p)
              else []
            else []
          else [])
        path names := by
  rcases depth with _ | _ | d <;> simp only [lsEntries] <;> norm_num

theorem _ls_items (fs : FS) (path pat : String) (ps : Bool) (depth : Int) :
    (_ls fs path pat ps depth).items =
      if fs.pathExists path then lsEntries fs pat ps depth.toNat path (fs.entries path)
      else [] := by
  unfold _ls
  split <;> rfl

theorem mem_lsScan_iff (pat : String) (ps : Bool) (sub : String → List LsItem)
    (path : String) (names : List String) (it : LsItem) :
    it ∈ lsScan pat ps sub path names ↔
      ∃ nm ∈ names, hiddenName nm = false ∧
        ((strContains pat (osJoin path nm) = true ∧ it = mkLsItem ps (osJoin path nm)) ∨
          it ∈ sub (osJoin path nm)) := by
  induction names with
  | nil => simp [lsScan_nil]
  | cons nm rest ih =>
    rw [lsScan_cons]
    simp only [List.mem_append, ih, List.mem_cons]
    cases hh : hiddenName nm <;>
      cases hm : strContains pat (osJoin path nm) <;>
        simp [hh, hm]

theorem mem_lsEntries_iff (fs : FS) (pat : String) (ps : Bool) :
    ∀ (depth : Nat) (path : String) (it : LsItem),
      (it ∈ lsEntries fs pat ps depth path (fs.entries path) ↔
        ∃ q, Listed fs pat depth path q ∧ it = mkLsItem ps q) := by
  intro depth
  induction depth using Nat.strong_induction_on with
  | _ depth ih =>
    intro path it
    rw [lsEntries_eq_scan, mem_lsScan_iff]
    constructor
    · rintro ⟨nm, hnm, hhid, hcase⟩
      rcases hcase with ⟨hm, rfl⟩ | hsub
      · exact ⟨osJoin path nm, Listed.here hnm hhid hm, rfl⟩
      · by_cases h2 : 2 ≤ depth
        · simp only [if_pos h2] at hsub
          by_cases hdir : fs.isDir (osJoin path nm) = true
          · simp only [if_pos hdir] at hsub
            by_cases hex : fs.pathExists (osJoin path nm) = true
            · simp only [if_pos hex] at hsub
              obtain ⟨q, hq, rfl⟩ := (ih (depth - 1) (by omega) (osJoin path nm) it).mp hsub
              exact ⟨q, Listed.deeper hnm hhid hdir (by omega) hex hq, rfl⟩
            · simp [hex] at hsub
          · simp [hdir] at hsub
        · simp [h2] at hsub
    · rintro ⟨q, hq, rfl⟩
      cases hq with
      | here hnm hhid hm => exact ⟨_, hnm, hhid, Or.inl ⟨hm, rfl⟩⟩
      | @deeper depth path nm q hnm hhid hdir hlt hex hq2 =>
        refine ⟨nm, hnm, hhid, Or.inr ?_⟩
        have h2 : 2 ≤ depth := hlt
        simp only [if_pos h2, if_pos hdir, if_pos hex]
        exact (ih (depth - 1) (by omega) (osJoin path nm) _).mpr ⟨q, hq2, rfl⟩

theorem lsEntries_depth_le_one (fs : FS) (pat : String) (ps : Bool) {depth : Nat}
    (h : depth ≤ 1) (path : String) (l : List String) :
    lsEntries fs pat ps depth path l =
      (l.filter (fun nm => !hiddenName nm && strContains pat (osJoin path nm))).map
        (fun nm => mkLsItem ps (osJoin path nm)) := by
  rw [lsEntries_eq_scan]
  have h2 : ¬ 2 ≤ depth := by omega
  induction l with
  | nil => rfl
  | cons nm rest ih =>
    rw [lsScan_cons, ih, List.filter_cons]
    cases hh : hiddenName nm <;> cases hm : strContains pat (osJoin path nm) <;>
      simp [hh, hm, h2]

theorem lsEntries_cyclic_len :
    ∀ (n : Nat) (path : String),
      (lsEntries fsCyclic "" false (n + 1) path ["b"]).length = n + 1 := by
  intro n
  induction n with
  | zero =>
    intro path
    rw [lsEntries_eq_scan, lsScan_cons]
    have hb : hiddenName "b" = false := by decide
    simp [hb, strContains_empty, lsScan_nil]
  | succ n ih =>
    intro path
    rw [lsEntries_eq_scan, lsScan_cons]
    have hb : hiddenName "b" = false := by decide
    have h2 : 2 ≤ n + 1 + 1 := by omega
    have hd : fsCyclic.isDir (osJoin path "b") = true := rfl
    have he : fsCyclic.pathExists (osJoin path "b") = true := rfl
    have hent : fsCyclic.entries (osJoin path "b") = ["b"] := rfl
    simp only [hb, strContains_empty, h2, hd, he, hent, if_pos, if_true, if_false,
      Bool.false_eq_true, lsScan_nil]
    rw [List.append_nil]
    simp only [Nat.add_sub_cancel]
    simp [strContains_empty, ih (osJoin path "b")]

/-- C2: the walker enumerates the direct entries in enumeration order and
recurses into an entry exactly when it is a directory and the remaining depth
budget exceeds 1, passing the budget decremented by 1 and splicing the
flattened recursive result in behind the entry; with depth 1 no recursion
occurs (closed shallow form), and with depth 2 over a root holding one
subdirectory of ten files the walk yields 11 entries for the empty pattern
and exactly the ten files for a pattern occurring only in the filenames. -/
theorem c2_walker_recursion :
    (∀ (fs : FS) (pat : String) (ps : Bool) (depth : Int) (path nm : String)
        (rest : List String),
      lsEntries fs pat ps depth.toNat path (nm :: rest) =
        (if hiddenName nm then []
         else
           (if strContains pat (osJoin path nm) then [mkLsItem ps (osJoin path nm)] else []) ++
           (if fs.isDir (osJoin path nm) = true ∧ 1 < depth then
              (_ls fs (osJoin path nm) pat ps (depth - 1)).items
            else []))
        ++ lsEntries fs pat ps depth.toNat path rest) ∧
    (∀ (fs : FS) (path pat : String) (ps : Bool),
      (Path.ls fs path pat ps).items =
        if fs.pathExists path then
          ((fs.entries path).filter
              (fun nm => !hiddenName nm && strContains pat (osJoin path nm))).map
            (fun nm => mkLsItem ps (osJoin path nm))
        else []) ∧
    (_ls fsDeep "r" "" false 2).n = 11 ∧
    (_ls fsDeep "r" "file" false 2).items =
      (List.range 10).map (fun i => mkLsItem false ("r/sub/file" ++ toString i)) := by
  refine ⟨?_, ?_, ?_, ?_⟩
  · intro fs pat ps depth path nm rest
    rw [lsEntries_eq_scan, lsScan_cons, ← lsEntries_eq_scan, _ls_items]
    have htn : (depth - 1).toNat = depth.toNat - 1 := by omega
    by_cases h1 : 1 < depth
    · have h2 : 2 ≤ depth.toNat := by omega
      by_cases hd : fs.isDir (osJoin path nm) = true <;>
        simp [h1, h2, hd, htn]
    · have h2 : ¬ 2 ≤ depth.toNat := by omega
      simp [h1, h2]
  · intro fs path pat ps
    show (_ls fs path pat ps 1).items = _
    rw [_ls_items]
    by_cases hex : fs.pathExists path = true
    · rw [if_pos hex, if_pos hex,
        lsEntries_depth_le_one fs pat ps (by norm_num) path (fs.entries path)]
    · simp [hex]
  · decide
  · decide

/-- C5: an element belongs to a listing, shallow or recursive, exactly when it
is the wrapped full path of some reachable entry that is not hidden and whose
full path holds the pattern as a substring (the `Listed` predicate); the
wrapping is a `Path` value, or the raw string in string-only mode; and the
fixture directory with two plain files and one hidden file lists with count 2
under the empty pattern. -/
theorem c5_hidden_and_pattern :
    (∀ (fs : FS) (path pat : String) (ps : Bool) (depth : Int) (it : LsItem),
      it ∈ (_ls fs path pat ps depth).items ↔
        fs.pathExists path = true ∧
          ∃ q, Listed fs pat depth.toNat path q ∧ it = mkLsItem ps q) ∧
    (∀ s : String, mkLsItem true s = LsItem.strItem s ∧
      mkLsItem false s = LsItem.pathItem (pyPath [s])) ∧
    (Path.ls fsTwoFiles "d" "" false).n = 2 := by
  refine ⟨?_, fun s => ⟨rfl, rfl⟩, by decide⟩
  intro fs path pat ps depth it
  rw [_ls_items]
  by_cases hex : fs.pathExists path = true
  · rw [if_pos hex]
    rw [mem_lsEntries_iff]
    simp [hex]
  · simp [hex]

/-- C6: `rls` replaces a negative depth argument by the sentinel `1 <<< 30`
before walking, and on the unboundedly deep cyclic filesystem fixture the walk
still returns a finite result whose length equals the depth budget, because
each recursive call strictly decreases the budget and recursion stops once the
budget is at most 1. -/
theorem c6_sentinel_and_termination :
    (∀ (fs : FS) (path pat : String) (ps : Bool) (depth : Int), depth < 0 →
        Path.rls fs path pat ps depth = _ls fs path pat ps ((1 <<< 30 : Nat) : Int)) ∧
    (∀ k : Int, 1 ≤ k → (_ls fsCyclic "r" "" false k).items.length = k.toNat) := by
  constructor
  · intro fs path pat ps depth hneg
    unfold Path.rls
    rw [if_neg (by omega)]
  · intro k hk
    rw [_ls_items]
    have hex : fsCyclic.pathExists "r" = true := rfl
    have hent : fsCyclic.entries "r" = ["b"] := rfl
    rw [if_pos hex, hent]
    have hkn : k.toNat = (k.toNat - 1) + 1 := by omega
    rw [hkn]
    exact lsEntries_cyclic_len (k.toNat - 1) "r"

/-- C6 witness: the sentinel equation at depth `-7` and the cyclic walk at
budget 3. -/
theorem c6_witness :
    Path.rls fsCyclic "r" "" false (-7) = _ls fsCyclic "r" "" false ((1 <<< 30 : Nat) : Int) ∧
    (_ls fsCyclic "r" "" false 3).items.length = (3 : Int).toNat :=
  ⟨c6_sentinel_and_termination.1 fsCyclic "r" "" false (-7) (by norm_num),
   c6_sentinel_and_termination.2 3 (by norm_num)⟩

/-- C7: when the root path does not exist, `_ls` at any depth, the shallow
`ls`, and the recursive `rls` all return the empty `CountedList` and signal no
error. -/
theorem c7_missing_root (fs : FS) (path pat : String) (ps : Bool)
    (h : fs.pathExists path = false) :
    (∀ depth : Int, _ls fs path pat ps depth = CountedList.ofList []) ∧
    Path.ls fs path pat ps = CountedList.ofList [] ∧
    (∀ depth : Int, Path.rls fs path pat ps depth = CountedList.ofList []) := by
  refine ⟨fun depth => ?_, ?_, fun depth => ?_⟩
  · unfold _ls
    simp [h]
  · unfold Path.ls _ls
    simp [h]
  · unfold Path.rls _ls
    simp [h]

/-- C7 witness: the all-missing filesystem fixture. -/
theorem c7_witness :
    fsMissing.pathExists "nope" = false ∧
    _ls fsMissing "nope" "" false 5 = CountedList.ofList [] ∧
    Path.ls fsMissing "nope" "" false = CountedList.ofList [] ∧
    Path.rls fsMissing "nope" "" false (-1) = CountedList.ofList [] :=
  ⟨rfl, (c7_missing_root fsMissing "nope" "" false rfl).1 5,
   (c7_missing_root fsMissing "nope" "" false rfl).2.1,
   (c7_missing_root fsMissing "nope" "" false rfl).2.2 (-1)⟩

/-- C8: the tree renderer called with depth exactly `-1` returns the empty
string, while with depth 0 it returns exactly the root's own line, with the
file or directory marker at the current indent, and renders no children. -/
theorem c8_tree_depth_edges :
    (∀ (fs : FS) (root : String) (indent : Int),
        get_directory_tree fs root indent (-1) = "") ∧
    (∀ (fs : FS) (root : String) (indent : Int),
        get_directory_tree fs root indent 0 =
          spaces indent.toNat ++ "|--" ++ (if fs.isFile root then "[F]" else "[D]")
            ++ " " ++ pathName root ++ "\n") := by
  constructor
  · intro fs root indent
    rfl
  · intro fs root indent
    rfl

/-- C10: `rls` with depth 0 is not treated as unbounded: only strictly
negative depths map to the sentinel, and since the walker recurses only when
the budget exceeds 1, `rls` at depth 0 returns exactly the shallow listing
`ls`. -/
theorem c10_rls_zero_shallow :
    (∀ (fs : FS) (path pat : String) (ps : Bool),
        Path.rls fs path pat ps 0 = Path.ls fs path pat ps) ∧
    (∀ (fs : FS) (path pat : String) (ps : Bool) (depth : Int), 0 ≤ depth →
        Path.rls fs path pat ps depth = _ls fs path pat ps depth) := by
  constructor
  · intro fs path pat ps
    show _ls fs path pat ps (if (0:Int) ≤ 0 then 0 else _) = _ls fs path pat ps 1
    rw [if_pos le_rfl]
    unfold _ls
    by_cases hex : fs.pathExists path = true
    · rw [if_pos hex, if_pos hex]
      rw [lsEntries_depth_le_one fs pat ps (by norm_num) path (fs.entries path),
        lsEntries_depth_le_one fs pat ps (by norm_num) path (fs.entries path)]
    · rw [if_neg hex, if_neg hex]
  · intro fs path pat ps depth hd
    unfold Path.rls
    rw [if_pos hd]

/-- C10 witness: depth 0 equals the shallow listing, and a nonnegative depth
passes through unchanged, on the depth-two fixture. -/
theorem c10_witness :
    Path.rls fsDeep "r" "" false 0 = Path.ls fsDeep "r" "" false ∧
    Path.rls fsDeep "r" "" false 2 = _ls fsDeep "r" "" false 2 :=
  ⟨c10_rls_zero_shallow.1 fsDeep "r" "" false,
   c10_rls_zero_shallow.2 fsDeep "r" "" false 2 (by norm_num)⟩

theorem splitChar_of_not_mem {c : Char} {l : List Char} (h : ¬ c ∈ l) :
    splitChar c l = [l] := by
  induction l with
  | nil => rfl
  | cons x xs ih =>
    have hx : ¬ x = c := by
      rintro rfl
      exact h (List.mem_cons_self _ _)
    have hxs : ¬ c ∈ xs := fun hm => h (List.mem_cons_of_mem _ hm)
    simp [splitChar, hx, ih hxs, consHead]

theorem segOk_iff (s : String) :
    segOk s = true ↔ s ≠ "" ∧ s ≠ "." ∧ ¬ '/' ∈ s.data := by
  simp [segOk, and_assoc]

theorem startsSlash_of_segOk {s : String} (h : segOk s = true) :
    startsSlash s = false := by
  obtain ⟨hne, _, hsl⟩ := (segOk_iff s).mp h
  unfold startsSlash
  cases hd : s.data with
  | nil =>
    exact absurd (by cases s; simp_all) hne
  | cons ch tl =>
    simp only [List.head?]
    have : ¬ ch = '/' := by
      rintro rfl
      exact hsl (hd ▸ List.mem_cons_self _ _)
    simp [this]

theorem parsePart_seg (acc : PyPath) {s : String} (h : segOk s = true) :
    parsePart acc s = PyPath.mk acc.absolute (acc.segs ++ [s]) := by
  obtain ⟨hne, hdot, hsl⟩ := (segOk_iff s).mp h
  unfold parsePart
  rw [startsSlash_of_segOk h]
  simp only [Bool.false_eq_true, if_false]
  rw [splitChar_of_not_mem hsl]
  have hmk : String.mk s.data = s := rfl
  simp [hmk, hne, hdot]

theorem foldl_parsePart_segs (segs : List String) (acc : PyPath)
    (h : ∀ s ∈ segs, segOk s = true) :
    List.foldl parsePart acc segs = PyPath.mk acc.absolute (acc.segs ++ segs) := by
  induction segs generalizing acc with
  | nil =>
    cases acc
    simp
  | cons s rest ih =>
    rw [List.foldl_cons, parsePart_seg acc (h s (List.mem_cons_self _ _)),
      ih _ (fun t ht => h t (List.mem_cons_of_mem _ ht))]
    simp

theorem pyPath_parts_roundtrip (p : PyPath) (hp : p.Wf) : pyPath p.parts = p := by
  rcases p with ⟨pa, psegs⟩
  have hsegs : ∀ s ∈ psegs, segOk s = true := List.all_eq_true.mp hp
  cases pa
  · show List.foldl parsePart (PyPath.mk false []) (([] : List String) ++ psegs) = _
    rw [List.nil_append, foldl_parsePart_segs psegs _ hsegs]
    rfl
  · show List.foldl parsePart (PyPath.mk false []) ((["/"] : List String) ++ psegs) = _
    rw [List.cons_append, List.nil_append, List.foldl_cons]
    have : parsePart (PyPath.mk false []) "/" = PyPath.mk true [] := rfl
    rw [this, foldl_parsePart_segs psegs _ hsegs]
    rfl

/-- C9: for a path value and plain segments `old` and `new`, `change` returns
the path whose parts are those of `p` with exactly the whole segments equal to
`old` replaced by `new` (a segment merely containing `old` as a substring is
untouched, since the replacement tests whole-segment equality), and when
`old = new` the operation returns a path equal to `p`; `p` itself, a pure
value, is never modified. -/
theorem c9_change_segments (p : PyPath) (old new : String) (hp : p.Wf)
    (hold : segOk old = true) (hnew : segOk new = true) :
    (p.change old new).parts = p.parts.map (fun s => if s = old then new else s) ∧
    (old = new → p.change old new = p) := by
  constructor
  · rcases p with ⟨pa, psegs⟩
    have hsegs : ∀ s ∈ psegs, segOk s = true := List.all_eq_true.mp hp
    have hm : ∀ s ∈ psegs.map (fun s => if s = old then new else s), segOk s = true := by
      intro s hs
      simp only [List.mem_map] at hs
      obtain ⟨t, ht, rfl⟩ := hs
      by_cases hto : t = old
      · simp [hto, hnew]
      · simp [hto, hsegs t ht]
    unfold PyPath.change
    cases pa
    · have hparts : PyPath.parts ⟨false, psegs⟩ = psegs := rfl
      rw [hparts]
      show (List.foldl parsePart (PyPath.mk false [])
          (psegs.map (fun part => if part = old then new else part))).parts = _
      rw [foldl_parsePart_segs _ _ hm]
      rfl
    · have hro : ("/" : String) ≠ old := by
        intro he
        rw [← he] at hold
        exact absurd hold (by decide)
      have hparts : PyPath.parts ⟨true, psegs⟩ = "/" :: psegs := rfl
      rw [hparts]
      have hmap : ("/" :: psegs).map (fun part => if part = old then new else part) =
          "/" :: psegs.map (fun part => if part = old then new else part) := by
        simp [if_neg hro]
      rw [hmap]
      show (List.foldl parsePart (PyPath.mk false [])
          ("/" :: psegs.map (fun part => if part = old then new else part))).parts = _
      rw [List.foldl_cons]
      have hslash : parsePart (PyPath.mk false []) "/" = PyPath.mk true [] := rfl
      rw [hslash, foldl_parsePart_segs _ _ hm]
      rfl
  · rintro rfl
    unfold PyPath.change
    have : p.parts.map (fun s => if s = old then old else s) = p.parts := by
      conv_rhs => rw [← List.map_id p.parts]
      apply List.map_congr_left
      intro s _
      by_cases h : s = old <;> simp [h]
    rw [this, pyPath_parts_roundtrip p hp]

/-- C9 witness: substitution over the parts of `a/b/a`, and idempotency on a
matching segment. -/
theorem c9_witness :
    ((PyPath.mk false ["a", "b", "a"]).change "a" "c").parts =
      (PyPath.mk false ["a", "b", "a"]).parts.map (fun s => if s = "a" then "c" else s) ∧
    (PyPath.mk false ["a", "b", "a"]).change "b" "b" = PyPath.mk false ["a", "b", "a"] :=
  ⟨(c9_change_segments (PyPath.mk false ["a", "b", "a"]) "a" "c"
      (by unfold PyPath.Wf; decide) (by decide) (by decide)).1,
   (c9_change_segments (PyPath.mk false ["a", "b", "a"]) "b" "b"
      (by unfold PyPath.Wf; decide) (by decide) (by decide)).2 rfl⟩

/-- C4: for `0 ≤ k ≤ n`, `sample` returns a new `CountedList` of exactly `k`
elements, each drawn from the original items at pairwise distinct positions,
so no duplicate values arise unless the original held duplicates; for `k`
exceeding the count it signals the invalid request with an error instead of
truncating, and the original container, a pure value, is left unchanged. -/
theorem c4_sample (α : Type) (c : CountedList α) (k : Int)
    (oracle : ∀ kk : Nat, kk ≤ c.items.length → SampleOracle c.items.length kk) :
    (0 ≤ k → k ≤ (c.n : Int) →
      ∃ r, c.sample k oracle = Except.ok r ∧
        r.n = k.toNat ∧
        (∀ a ∈ r.items, a ∈ c.items) ∧
        (∃ sel : List (Fin c.items.length), sel.Nodup ∧ sel.length = k.toNat ∧
          r.items = sel.map c.items.get) ∧
        (c.items.Nodup → r.items.Nodup)) ∧
    ((c.n : Int) < k →
      c.sample k oracle = Except.error "Sample larger than population or is negative") := by
  constructor
  · intro h0 hk
    have hcond : 0 ≤ k ∧ k ≤ (c.items.length : Int) := ⟨h0, hk⟩
    unfold CountedList.sample
    rw [dif_pos hcond]
    refine ⟨_, rfl, ?_, ?_, ?_, ?_⟩
    · show (CountedList.ofList _).items.length = k.toNat
      simp [CountedList.ofList, (oracle k.toNat (by omega)).length_eq]
    · intro a ha
      simp only [CountedList.ofList, List.mem_map] at ha
      obtain ⟨i, _, rfl⟩ := ha
      exact List.get_mem c.items i.1 i.2
    · exact ⟨(oracle k.toNat (by omega)).idxs, (oracle k.toNat (by omega)).nodup,
        (oracle k.toNat (by omega)).length_eq, rfl⟩
    · intro hnd
      exact List.Nodup.map (List.nodup_iff_injective_get.mp hnd)
        (oracle k.toNat (by omega)).nodup
  · intro hk
    unfold CountedList.sample
    rw [dif_neg]
    intro hcond
    have : (c.n : Int) = (c.items.length : Int) := rfl
    omega

/-- C4 witness: sampling two of three elements succeeds with the stated shape,
and requesting five of three signals the error. -/
theorem c4_witness :
    (∃ r, (CountedList.ofList [10, 20, 30]).sample 2
        (oracleTake3 (CountedList.ofList [10, 20, 30]) rfl) = Except.ok r ∧
      r.n = (2 : Int).toNat ∧
      (∀ a ∈ r.items, a ∈ (CountedList.ofList [10, 20, 30]).items) ∧
      (∃ sel : List (Fin (CountedList.ofList [10, 20, 30]).items.length),
        sel.Nodup ∧ sel.length = (2 : Int).toNat ∧
        r.items = sel.map (CountedList.ofList [10, 20, 30]).items.get) ∧
      ((CountedList.ofList [10, 20, 30]).items.Nodup → r.items.Nodup)) ∧
    (CountedList.ofList [10, 20, 30]).sample 5
        (oracleTake3 (CountedList.ofList [10, 20, 30]) rfl) =
      Except.error "Sample larger than population or is negative" :=
  ⟨(c4_sample Nat (CountedList.ofList [10, 20, 30]) 2
      (oracleTake3 (CountedList.ofList [10, 20, 30]) rfl)).1 (by norm_num) (by decide),
   (c4_sample Nat (CountedList.ofList [10, 20, 30]) 5
      (oracleTake3 (CountedList.ofList [10, 20, 30]) rfl)).2 (by decide)⟩

theorem traverseOpt_spec {α β : Type} (g : α → Option β) :
    ∀ (l : List α) (out : List β), traverseOpt g l = some out →
      out.length = l.length ∧ ∀ j : Nat, out.get? j = (l.get? j).bind g := by
  intro l
  induction l with
  | nil =>
    intro out h
    simp only [traverseOpt, Option.some_inj] at h
    subst h
    exact ⟨rfl, fun j => by simp⟩
  | cons a l ih =>
    intro out h
    simp only [traverseOpt] at h
    cases hga : g a with
    | none => simp [hga] at h
    | some b =>
      rw [hga] at h
      cases hml : traverseOpt g l with
      | none => simp [hml] at h
      | some bs =>
        rw [hml] at h
        simp at h
        obtain ⟨hlen, hget⟩ := ih bs hml
        subst h
        refine ⟨by simp [hlen], fun j => ?_⟩
        cases j with
        | zero => simp [hga]
        | succ j => simpa using hget j

theorem filterMap_get_range {α : Type} (l : List α) (st : Nat) :
    ∀ cnt : Nat, ((List.range cnt).map (fun j => st + j)).filterMap l.get? =
      (l.drop st).take cnt := by
  intro cnt
  induction cnt with
  | zero => simp
  | succ n ih =>
    rw [List.range_succ, List.map_append, List.filterMap_append, ih, List.take_succ]
    congr 1
    rw [List.getElem?_drop]
    simp only [List.map_cons, List.map_nil, List.filterMap_cons, List.filterMap_nil,
      List.get?_eq_getElem?]
    cases l[st + n]? <;> simp

theorem take_drop_infix {α : Type} (l : List α) (st cnt : Nat) :
    (l.drop st).take cnt <:+: l :=
  ⟨l.take st, (l.drop st).drop cnt, by rw [List.append_assoc, List.take_append_drop,
    List.take_append_drop]⟩

/-- C1 counterexample: slicing a `CountedList` whose display parameters are
not the defaults returns a container whose `max_lines` is the default 15, not
the 3 of the source container, refuting the claim that the returned container
has the same display parameters. -/
theorem c1_counterexample :
    ((CountedList.mk ([0, 1, 2] : List Nat) 3 50).getSlice
        (PySlice.mk (some 0) (some 2) none)).map CountedList.max_lines ≠
      some (CountedList.mk ([0, 1, 2] : List Nat) 3 50).max_lines := by decide

/-- C1 as amended: indexing by a single integer, nonnegative or negative within
range, returns the bare element; indexing by a slice returns a new
`CountedList` whose display parameters are the constructor defaults
`(15, 120)` — not those of `c` — and whose items, for a unit-step slice, form
a contiguous ordered sub-sequence of `c`; indexing by a list of integer
indices returns a new `CountedList` again with the default display
parameters, holding exactly the elements `c[i0], ..., c[ik]` in the requested
order, duplicates allowed. -/
theorem c1_getitem_amended {α : Type} (c : CountedList α) :
    (∀ i : Int, 0 ≤ i → i < (c.n : Int) →
      c.getInt i = c.items.get? i.toNat ∧ (c.getInt i).isSome = true) ∧
    (∀ i : Int, -(c.n : Int) ≤ i → i < 0 →
      c.getInt i = c.items.get? (i + c.n).toNat ∧ (c.getInt i).isSome = true) ∧
    (∀ (sl : PySlice) (r : CountedList α), c.getSlice sl = some r →
      r.max_lines = 15 ∧ r.max_width = 120 ∧
        (sl.step = none → r.items <:+: c.items)) ∧
    (∀ (idx : List Int) (r : CountedList α), c.getList idx = some r →
      r.max_lines = 15 ∧ r.max_width = 120 ∧ r.items.length = idx.length ∧
        ∀ j : Nat, r.items.get? j = (idx.get? j).bind c.getInt) := by
  have hn : c.n = c.items.length := rfl
  refine ⟨?_, ?_, ?_, ?_⟩
  · intro i h0 hlt
    have hi : i.toNat < c.items.length := by omega
    unfold CountedList.getInt pyGet
    rw [if_pos h0]
    exact ⟨rfl, by rw [List.get?_eq_get hi]; rfl⟩
  · intro i hge hlt
    have h0 : ¬ 0 ≤ i := by omega
    have hge2 : -(c.items.length : Int) ≤ i := by omega
    have hi : (i + c.items.length).toNat < c.items.length := by omega
    unfold CountedList.getInt pyGet
    rw [if_neg h0, if_pos hge2]
    exact ⟨rfl, by rw [List.get?_eq_get hi]; rfl⟩
  · intro sl r hsl
    obtain ⟨idxs, hidx, rfl⟩ := Option.map_eq_some'.mp hsl
    refine ⟨rfl, rfl, fun hstep => ?_⟩
    rcases sl with ⟨sst, ssp, sstep⟩
    simp only at hstep
    subst hstep
    simp only [pySliceIdx, Option.getD] at hidx
    norm_num at hidx
    rw [← hidx]
    rw [filterMap_get_range]
    exact take_drop_infix c.items _ _
  · intro idx r hr
    obtain ⟨out, hout, rfl⟩ := Option.map_eq_some'.mp hr
    obtain ⟨hlen, hget⟩ := traverseOpt_spec c.getInt idx out hout
    exact ⟨rfl, rfl, hlen, hget⟩

/-- C1 witness: integer, slice and list indexing on the container `[5, 6, 7]`. -/
theorem c1_witness :
    ((CountedList.ofList [5, 6, 7] : CountedList Nat).getInt 1 =
        (CountedList.ofList [5, 6, 7] : CountedList Nat).items.get? (1 : Int).toNat ∧
      ((CountedList.ofList [5, 6, 7] : CountedList Nat).getInt 1).isSome = true) ∧
    ((CountedList.ofList [5, 6, 7] : CountedList Nat).getInt (-1) =
        (CountedList.ofList [5, 6, 7] : CountedList Nat).items.get?
          ((-1) + ((CountedList.ofList [5, 6, 7] : CountedList Nat).n : Int)).toNat ∧
      ((CountedList.ofList [5, 6, 7] : CountedList Nat).getInt (-1)).isSome = true) ∧
    ((CountedList.ofList [5, 6] : CountedList Nat).max_lines = 15 ∧
      (CountedList.ofList [5, 6] : CountedList Nat).max_width = 120 ∧
      ((PySlice.mk (some 0) (some 2) none).step = none →
        (CountedList.ofList [5, 6] : CountedList Nat).items <:+:
          (CountedList.ofList [5, 6, 7] : CountedList Nat).items)) ∧
    ((CountedList.ofList [7, 5] : CountedList Nat).max_lines = 15 ∧
      (CountedList.ofList [7, 5] : CountedList Nat).max_width = 120 ∧
      (CountedList.ofList [7, 5] : CountedList Nat).items.length = ([2, 0] : List Int).length ∧
      ∀ j : Nat, (CountedList.ofList [7, 5] : CountedList Nat).items.get? j =
        (([2, 0] : List Int).get? j).bind (CountedList.ofList [5, 6, 7] : CountedList Nat).getInt) :=
  ⟨(c1_getitem_amended (CountedList.ofList [5, 6, 7])).1 1 (by norm_num) (by decide),
   (c1_getitem_amended (CountedList.ofList [5, 6, 7])).2.1 (-1) (by decide) (by norm_num),
   (c1_getitem_amended (CountedList.ofList [5, 6, 7])).2.2.1 (PySlice.mk (some 0) (some 2) none)
     (CountedList.ofList [5, 6]) (by decide),
   (c1_getitem_amended (CountedList.ofList [5, 6, 7])).2.2.2 [2, 0]
     (CountedList.ofList [7, 5]) (by decide)⟩

theorem pyStrDrop_spaces (n : Nat) (t : String) : pyStrDrop (spaces n ++ t) n = t := by
  have h := pyStrDrop_append (spaces n) t
  rwa [spaces_length] at h

set_option maxRecDepth 100000 in
/-- C3: for a nonempty `CountedList` whose single-line rendering does not fit
within `max_width`, the multi-line rendering shows every element, one per
line, when the count is at most `max_lines`, and otherwise the first
`max_lines - 1` elements, an ellipsis line, and the true last element, the
continuation lines indented to align under the opening bracket of the
`(#count) [` prefix; in particular the container of the integers 0..999 with
`max_lines = 5` shows the elements 0, 1, 2, 3, an ellipsis line, and 999. -/
theorem c3_render_multiline {α : Type} (f : α → String) (c : CountedList α)
    (x : α) (xs : List α) (hitems : c.items = x :: xs)
    (hfit : c.fitsOneLine f = false) :
    ((c.n : Int) ≤ c.max_lines →
      CountedList.render f c =
        "(#" ++ toString c.n ++ ") [" ++
          joinSep (",\n" ++ spaces (5 + (toString c.n).length)) (c.items.map f) ++ "]") ∧
    ((c.max_lines : Int) < (c.n : Int) → 2 ≤ c.max_lines →
      CountedList.render f c =
        "(#" ++ toString c.n ++ ") [" ++
          joinSep (",\n" ++ spaces (5 + (toString c.n).length))
            ((c.items.take (c.max_lines - 1).toNat).map f) ++
          ",\n" ++ spaces (5 + (toString c.n).length) ++ "...\n" ++
          spaces (5 + (toString c.n).length) ++ f (c.items.getLast (by simp [hitems])) ++ "]") ∧
    CountedList.render Nat.repr (CountedList.mk (List.range 1000) 5 120) =
      "(#1000) [0,\n         1,\n         2,\n         3,\n         ...\n         999]" := by
  rcases c with ⟨items, ml, mw⟩
  simp only at hitems
  subst hitems
  simp only [CountedList.fitsOneLine] at hfit
  simp only [CountedList.render, CountedList.n] at *
  refine ⟨?_, ?_, by decide⟩
  · intro hcnt
    rw [if_neg (by exact of_decide_eq_false hfit)]
    rw [if_pos hcnt]
    rw [show (fun it => spaces (5 + (toString (x :: xs).length).length) ++ f it) =
      (fun t => spaces (5 + (toString (x :: xs).length).length) ++ t) ∘ f from rfl]
    rw [← List.map_map, List.map_cons, joinSep_map_indent, pyStrDrop_spaces]
  · intro hgt hml2
    rw [if_neg (by exact of_decide_eq_false hfit)]
    rw [if_neg (by omega)]
    unfold pyTake
    rw [if_pos (by omega : (0:Int) ≤ ml - 1)]
    obtain ⟨m, hm⟩ : ∃ m, (ml - 1).toNat = m + 1 := ⟨(ml - 1).toNat - 1, by omega⟩
    rw [hm, List.take_succ_cons]
    rw [show (fun it => spaces (5 + (toString (x :: xs).length).length) ++ f it) =
      (fun t => spaces (5 + (toString (x :: xs).length).length) ++ t) ∘ f from rfl]
    rw [← List.map_map, List.map_cons, joinSep_map_indent]
    rw [show ∀ a b c2 d e g : String, a ++ b ++ c2 ++ d ++ e ++ g =
      a ++ (b ++ c2 ++ d ++ e ++ g) from by intros; simp [String.append_assoc]]
    rw [String.append_assoc (spaces (5 + (toString (x :: xs).length).length))]
    rw [pyStrDrop_spaces]
    simp [String.append_assoc]

/-- C3 witness: a three-element container under a narrow width renders every
element one per line, and a six-element container with `max_lines = 3` renders
two elements, the ellipsis line, and the last element. -/
theorem c3_witness :
    (((CountedList.mk ([100, 200, 300] : List Nat) 15 10).n : Int) ≤
        (CountedList.mk ([100, 200, 300] : List Nat) 15 10).max_lines ∧
      CountedList.render Nat.repr (CountedList.mk ([100, 200, 300] : List Nat) 15 10) =
        "(#" ++ toString (CountedList.mk ([100, 200, 300] : List Nat) 15 10).n ++ ") [" ++
          joinSep (",\n" ++ spaces (5 +
              (toString (CountedList.mk ([100, 200, 300] : List Nat) 15 10).n).length))
            ((CountedList.mk ([100, 200, 300] : List Nat) 15 10).items.map Nat.repr) ++ "]") ∧
    (CountedList.render Nat.repr (CountedList.mk ([0, 1, 2, 3, 4, 5] : List Nat) 3 5) =
      "(#" ++ toString (CountedList.mk ([0, 1, 2, 3, 4, 5] : List Nat) 3 5).n ++ ") [" ++
        joinSep (",\n" ++ spaces (5 +
            (toString (CountedList.mk ([0, 1, 2, 3, 4, 5] : List Nat) 3 5).n).length))
          (((CountedList.mk ([0, 1, 2, 3, 4, 5] : List Nat) 3 5).items.take
              ((CountedList.mk ([0, 1, 2, 3, 4, 5] : List Nat) 3 5).max_lines - 1).toNat).map
            Nat.repr) ++
        ",\n" ++ spaces (5 +
          (toString (CountedList.mk ([0, 1, 2, 3, 4, 5] : List Nat) 3 5).n).length) ++ "...\n" ++
        spaces (5 +
          (toString (CountedList.mk ([0, 1, 2, 3, 4, 5] : List Nat) 3 5).n).length) ++
        Nat.repr ((CountedList.mk ([0, 1, 2, 3, 4, 5] : List Nat) 3 5).items.getLast
          (by simp)) ++ "]") :=
  ⟨⟨by decide,
    (c3_render_multiline Nat.repr (CountedList.mk ([100, 200, 300] : List Nat) 15 10)
      100 [200, 300] rfl (by decide)).1 (by decide)⟩,
   (c3_render_multiline Nat.repr (CountedList.mk ([0, 1, 2, 3, 4, 5] : List Nat) 3 5)
      0 [1, 2, 3, 4, 5] rfl (by decide)).2.1 (by decide) (by decide)⟩
